import Mathlib

/-!
Shallow embedding of `src/smallshell.c`, a small interactive shell.

Modelled pieces, with the source lines they are translated from:
tokenizing and command-line parsing (lines 163-204), `$$` pid expansion
(lines 206-220), built-in dispatch (lines 232/259/279/299), the `exit`
built-in's kill/wait sequence (lines 232-244), the `status` built-in
(lines 279-292), the foreground wait-status handling (lines 338-353),
the background-job reap loop (lines 421-440), and the SIGTSTP toggle
(lines 37-48).  `printf` output is modelled as a list of printed lines,
without the trailing newline.
-/

namespace SmallShell

/-!
### wait-status macros

The source classifies `waitpid` statuses with glibc's macros
(`bits/waitstatus.h`):
`WIFEXITED(s)   = ((s & 0x7f) == 0)`
`WIFSIGNALED(s) = ((signed char)(((s & 0x7f) + 1)) >> 1) > 0`
`WEXITSTATUS(s) = ((s & 0xff00) >> 8)`
`WTERMSIG(s)    = (s & 0x7f)`
The C `int` is modelled as `Int`; `toU32` gives its 32-bit
two's-complement bit pattern, so `& 0x7f` is `% 128` and
`(& 0xff00) >> 8` is `/ 256 % 256`.  The arithmetic right shift of a
`signed char` by one is floor division by two.
-/

def toU32 (x : Int) : Nat := (x % 4294967296).toNat

/-- Conversion of a byte value to a C `signed char`. -/
def signedChar (n : Nat) : Int :=
  if n % 256 < 128 then ((n % 256 : Nat) : Int) else ((n % 256 : Nat) : Int) - 256

def WIFEXITED (x : Int) : Bool := toU32 x % 128 == 0

/-- The body of `WIFSIGNALED` as a function of the low seven status
bits. -/
def sigTest (t : Nat) : Bool := decide (0 < (signedChar (t + 1)).fdiv 2)

def WIFSIGNALED (x : Int) : Bool := sigTest (toU32 x % 128)

def WEXITSTATUS (x : Int) : Nat := toU32 x / 256 % 256

def WTERMSIG (x : Int) : Nat := toU32 x % 128

/-!
### tokenizing (lines 163-204)

`strtok(user_input, " \n")` splits the line at blanks and newlines and
never yields an empty token.
-/

def isDelim (c : Char) : Bool := c == ' ' || c == '\n'

def tokenizeAux : List Char → List Char → List String
  | [], acc => if acc.isEmpty then [] else [String.mk acc.reverse]
  | c :: cs, acc =>
    if isDelim c then
      if acc.isEmpty then tokenizeAux cs []
      else String.mk acc.reverse :: tokenizeAux cs []
    else tokenizeAux cs (c :: acc)

def tokenize (line : String) : List String := tokenizeAux line.data []

structure Parsed where
  command : String
  args : List String
  input_file : String
  output_file : String
  run_in_background : Bool
deriving DecidableEq

def emptyParsed : Parsed :=
  { command := "", args := [], input_file := "", output_file := "",
    run_in_background := false }

/-- The token-classification loop of lines 177-202.  `cmd` is the
command name copied out at line 172.  A `<` or `>` token with no
following token makes the source call `strcpy` on the NULL result of
`strtok` (lines 181/186); that undefined behavior is modelled as `none`.
A `&` token sets the background flag only when `fg_only_mode` is off and
the command is not `echo` (line 190).  Every other token (the command
itself included, lines 194-199) is appended to the argument list. -/
def parseRest (fgOnly : Bool) (cmd : String) : List String → Parsed → Option Parsed
  | [], st => some st
  | t :: rest, st =>
    if t == "<" then
      match rest with
      | [] => none
      | f :: rest2 => parseRest fgOnly cmd rest2 { st with input_file := f }
    else if t == ">" then
      match rest with
      | [] => none
      | f :: rest2 => parseRest fgOnly cmd rest2 { st with output_file := f }
    else if t == "&" then
      parseRest fgOnly cmd rest
        { st with run_in_background :=
            if fgOnly == false && !(cmd == "echo") then true
            else st.run_in_background }
    else
      parseRest fgOnly cmd rest { st with args := st.args ++ [t] }

/-- Lines 163-204.  A blank line (first char a newline) and a comment
line (first token starting with `#`) skip the loop and leave `command`
empty; otherwise the first token becomes the command name and the whole
token list, command included, runs through the loop.  A non-empty line
made only of blanks makes line 168 read `token[0]` from the NULL
`strtok` result; that undefined behavior is modelled as `none`. -/
def parseLine (fgOnly : Bool) (line : String) : Option Parsed :=
  if line.front == '\n' then some emptyParsed
  else
    match tokenize line with
    | [] => none
    | t :: rest =>
      if t.front == '#' then some emptyParsed
      else parseRest fgOnly t (t :: rest) { emptyParsed with command := t }

/-!
### built-in dispatch and launch (lines 232/259/279/299)
-/

inductive Action where
  | builtinExit : Action
  | builtinCd : Action
  | builtinStatus : Action
  | launch : Bool → Action
deriving DecidableEq

/-- The if/else chain at lines 232/259/279/299: any command name that is
not `exit`, `cd` or `status` — the empty name left behind by a blank or
comment line included — reaches the fork-and-exec branch, foreground
when `run_in_background` is 0 (line 300), background otherwise. -/
def dispatch (p : Parsed) : Action :=
  if p.command == "exit" then Action.builtinExit
  else if p.command == "cd" then Action.builtinCd
  else if p.command == "status" then Action.builtinStatus
  else Action.launch p.run_in_background

/-- Only the background parent branch (line 404) prints the new pid; the
foreground branch (lines 300-355) prints nothing when launching. -/
def launchParentPrints (background : Bool) (pid : Int) : List String :=
  if background then ["background pid is " ++ toString pid] else []

/-- Lines 37-48: the SIGTSTP handler toggles `fg_only_mode` and writes
one of two fixed messages. -/
def catchSIGTSTP (fg_only_mode : Bool) : Bool × String :=
  if fg_only_mode == false then
    (true, "Entering foreground-only mode (& is now ignored)")
  else (false, "Exiting foreground-only mode")

/-!
### the exit built-in (lines 232-244)
-/

inductive Syscall where
  | kill : Int → Int → Syscall
  | waitpid : Int → Syscall
  | exitProc : Nat → Syscall
deriving DecidableEq

def SIGKILL : Int := 9

/-- Lines 232-244: the `exit` built-in walks the pid table and, for
every slot holding a positive pid, issues `kill(SIGKILL, children[i])` —
so the constant `SIGKILL` is passed in the pid argument position and the
child pid in the signal argument position, exactly as written at line
237 — then blocks in `waitpid(children[i], ..., 0)`, and finally calls
`exit(0)`.  `Syscall.kill a b` records a call `kill(a, b)` whose pid
argument is `a` and whose signal argument is `b`. -/
def exitBuiltin (children : List Int) : List Syscall :=
  ((children.filter (fun c => decide (0 < c))).map
    (fun c => [Syscall.kill SIGKILL c, Syscall.waitpid c])).flatten
    ++ [Syscall.exitProc 0]

/-!
### the status built-in (lines 279-292) and foreground wait (338-353)
-/

/-- Line 81: `childExitMethod` starts as the sentinel -5. -/
def childExitMethodInit : Int := -5

/-- Lines 279-292: the `status` built-in prints from the shared
`childExitMethod` variable (nothing is printed when neither macro
accepts the value). -/
def statusOutput (cem : Int) : List String :=
  if WIFEXITED cem then ["exit value " ++ toString (WEXITSTATUS cem)]
  else if WIFSIGNALED cem then
    ["terminated by signal " ++ toString (WTERMSIG cem)]
  else []

structure FgOutcome where
  exit_status : Nat
  term_signal : Nat
  printed : List String
deriving DecidableEq

/-- Lines 338-353: after the blocking wait for a foreground child, the
shell records the exit value or the terminating signal into
`exit_status` / `term_signal`, and prints the "terminated by signal"
message only when the signal is not 11 (line 349). -/
def fgUpdate (cem : Int) (exit_status term_signal : Nat) : FgOutcome :=
  if WIFEXITED cem then ⟨WEXITSTATUS cem, term_signal, []⟩
  else if WIFSIGNALED cem then
    ⟨exit_status, WTERMSIG cem,
      if WTERMSIG cem == 11 then []
      else ["terminated by signal " ++ toString (WTERMSIG cem)]⟩
  else ⟨exit_status, term_signal, []⟩

/-!
### the reap loop (lines 421-440)
-/

/-- Lines 430-437: the reaper's classification of a reaped status.  Line
430 tests `WIFEXITED(childExitMethod != 0)`: the macro is applied to the
0/1 value of the comparison, not to the status itself (compare the
correct `WIFEXITED(childExitMethod) != 0` at lines 280 and 342). -/
def reaperClassification (cem : Int) : List String :=
  if WIFEXITED (if cem == 0 then 0 else 1) then
    ["exit value " ++ toString (WEXITSTATUS cem)]
  else if WIFSIGNALED cem then
    ["term sig was " ++ toString (WTERMSIG cem)]
  else []

structure ReapResult where
  children : List Int
  childExitMethod : Int
  printed : List String
deriving DecidableEq

/-- Lines 421-440: once per loop iteration, a non-blocking wait over the
pid table.  `reap c = some st` models `waitpid(c, &childExitMethod,
WNOHANG)` returning `c` with status `st`; `none` models a return of 0
(child still running), which leaves `childExitMethod` untouched.  The
accumulator mirroring the local `temp` of line 422 starts at 0 and stays
stale across skipped `-5` slots, as in the source.  A reaped slot is
invalidated to -5 (line 438). -/
def reapLoop (reap : Int → Option Int) : List Int → Int → Int → ReapResult
  | [], _, cem => ⟨[], cem, []⟩
  | c :: rest, temp, cem =>
    let step : Int × Int :=
      if c != -5 then
        match reap c with
        | some st => (c, st)
        | none => ((0 : Int), cem)
      else (temp, cem)
    if step.1 == c then
      let r := reapLoop reap rest step.1 step.2
      ⟨(-5) :: r.children, r.childExitMethod,
        (("process " ++ toString c ++ " completed") ::
          reaperClassification step.2) ++ r.printed⟩
    else
      let r := reapLoop reap rest step.1 step.2
      ⟨c :: r.children, r.childExitMethod, r.printed⟩

/-!
### `$$` expansion (lines 206-220)

Per argument: when `strstr(arg, "$$")` finds the substring, either the
argument is exactly `$$` and is overwritten with the shell pid, or
`strtok(arg, "$$")` — whose delimiter *set* is just the single character
`$` — extracts the first maximal run of non-`$` characters (after
skipping leading `$`s) and the argument is rewritten to that run
followed by the pid.  A NULL `strtok` result (argument consisting only
of `$`s) is fed to `sprintf %s`; that out-of-contract case is modelled
as `none`.  Arguments are char lists; the pid prints in decimal.
-/

def startsDD : List Char → Bool
  | '$' :: '$' :: _ => true
  | _ => false

def containsDD : List Char → Bool
  | [] => false
  | c :: cs => startsDD (c :: cs) || containsDD cs

def strtokDollars (s : List Char) : Option (List Char) :=
  let s2 := s.dropWhile (fun c => c == '$')
  if s2.isEmpty then none else some (s2.takeWhile (fun c => !(c == '$')))

def pidChars (pid : Nat) : List Char := (toString pid).data

def expandArg (pid : Nat) (s : List Char) : Option (List Char) :=
  if containsDD s then
    if s = ['$', '$'] then some (pidChars pid)
    else
      match strtokDollars s with
      | none => none
      | some t => some (t ++ pidChars pid)
  else some s

/-!
## Theorems
-/

/-- C1: the claim says `exit` sends a forced termination signal to each
tracked job's pid and waits for it; at line 237 the source instead calls
`kill(SIGKILL, children[i])`, passing the SIGKILL constant as the pid
argument and the child pid as the signal argument.  With tracked jobs
1234 and 77 (and a freed -5 slot, correctly skipped), the syscall trace
contains `kill(9, 1234)` and `kill(9, 77)` but never the claimed
`kill(1234, 9)`; the final `exit(0)` does happen. -/
theorem exit_builtin_kill_swapped :
    exitBuiltin [1234, -5, 77] =
      [Syscall.kill 9 1234, Syscall.waitpid 1234,
       Syscall.kill 9 77, Syscall.waitpid 77, Syscall.exitProc 0] ∧
    ¬ Syscall.kill 1234 9 ∈ exitBuiltin [1234, -5, 77] := by decide

/-- C2: the claim says a background completion never changes what
`status` reports.  After a foreground command exits with value 1
(`childExitMethod = 256`), `status` prints "exit value 1"; but the reap
loop's `waitpid` writes the background job's status into the same
`childExitMethod`, so after a background job (pid 7) is reaped with
status 0, `status` prints "exit value 0". -/
theorem status_changed_by_background_reap :
    statusOutput 256 = ["exit value 1"] ∧
    reapLoop (fun _ => some 0) [7] 0 256 =
      ⟨[-5], 0, ["process 7 completed", "exit value 0"]⟩ ∧
    statusOutput 0 = ["exit value 0"] := by decide

/-- C3: the claim says a `<` or `>` with no following token is reported
as a parse error, the command is aborted and the loop continues, with no
undefined behavior.  The source instead passes the NULL `strtok` result
straight to `strcpy` (lines 181/186): on the lines `cat <` and `echo >`
the parse reaches that undefined behavior (modelled as `none`), and no
parse error is ever reported. -/
theorem redirection_missing_target_ub :
    parseLine false "cat <\n" = none ∧ parseLine false "echo >\n" = none := by
  decide

/-- C4: the claim says a blank line or a comment line causes no further
processing — no built-in runs and no process is created.  In the source
both leave `command` empty, and the empty name falls through the
`exit`/`cd`/`status` chain into the fork-and-exec branch (line 299): a
foreground child is forked even for these lines. -/
theorem blank_and_comment_lines_fork :
    parseLine false "\n" = some emptyParsed ∧
    parseLine false "# a comment\n" = some emptyParsed ∧
    dispatch emptyParsed = Action.launch false := by decide

/-- C6: the claim says a reaped background job's classification is
printed — its actual exit value on normal exit.  A background job (pid
7) that exits with value 1 has wait status 256, which is a normal exit
with value 1; but line 430 tests `WIFEXITED(childExitMethod != 0)`,
i.e. `WIFEXITED(1)`, which is false (and `WIFSIGNALED(256)` is false
too), so the reaper prints only "process 7 completed" with no
classification line at all. -/
theorem reaper_nonzero_exit_unclassified :
    WIFEXITED 256 = true ∧ WEXITSTATUS 256 = 1 ∧
    reapLoop (fun _ => some 256) [7] 0 childExitMethodInit =
      ⟨[-5], 256, ["process 7 completed"]⟩ := by decide

/-- C7: the claim says `status` run before any foreground command
reports "exit value 0".  The sentinel initialization
`childExitMethod = -5` (line 81) has low status bits 123, which
`WIFSIGNALED` accepts, so the source prints "terminated by signal 123"
instead. -/
theorem status_initially_signal_123 :
    statusOutput childExitMethodInit = ["terminated by signal 123"] ∧
    ¬ statusOutput childExitMethodInit = ["exit value 0"] := by decide

/-- Helper for C5: when the condition of line 190 is false — the shell
is in foreground-only mode, or the command is `echo` — the loop of lines
177-202 never changes `run_in_background`. -/
theorem parseRest_rib_of_cond_false (fgOnly : Bool) (cmd : String)
    (h : fgOnly = true ∨ cmd = "echo") :
    ∀ (n : Nat) (l : List String), l.length ≤ n → ∀ (st st2 : Parsed),
      parseRest fgOnly cmd l st = some st2 →
      st2.run_in_background = st.run_in_background := by
  intro n
  induction n with
  | zero =>
    intro l hl st st2 hp
    have hnil : l = [] := List.length_eq_zero.mp (Nat.le_zero.mp hl)
    subst hnil
    rw [parseRest.eq_def] at hp
    simp only [Option.some.injEq] at hp
    subst hp
    rfl
  | succ n ih =>
    intro l hl st st2 hp
    cases l with
    | nil =>
      rw [parseRest.eq_def] at hp
      simp only [Option.some.injEq] at hp
      subst hp
      rfl
    | cons t rest =>
      have hrest : rest.length ≤ n := by simp at hl; omega
      rw [parseRest.eq_def] at hp
      by_cases h1 : t = "<"
      · subst h1
        cases rest with
        | nil => simp at hp
        | cons f rest2 =>
          simp at hp
          have hres := ih rest2 (by simp at hl; omega) _ st2 hp
          exact hres
      · by_cases h2 : t = ">"
        · subst h2
          cases rest with
          | nil => simp at hp
          | cons f rest2 =>
            simp at hp
            have hres := ih rest2 (by simp at hl; omega) _ st2 hp
            exact hres
        · by_cases h3 : t = "&"
          · subst h3
            simp at hp
            have hres := ih rest hrest _ st2 hp
            rw [hres]
            rcases h with hf | he
            · subst hf; simp
            · simp [he]
          · simp [h1, h2, h3] at hp
            have hres := ih rest hrest _ st2 hp
            exact hres

/-- Helper for C5: when the condition of line 190 holds and the final
`&` token is actually scanned by the loop (it is not consumed at lines
180/185 as a redirection filename, which is ensured when the token
before it is not a pending `<` or `>`), the parsed command carries
`run_in_background = true`. -/
theorem parseRest_rib_of_trailing_amp (fgOnly : Bool) (cmd : String)
    (hf : fgOnly = false) (he : ¬ cmd = "echo") :
    ∀ (n : Nat) (ts : List String), ts.length ≤ n →
      ts.getLast? ≠ some "<" → ts.getLast? ≠ some ">" →
      ∀ (st st2 : Parsed),
        parseRest fgOnly cmd (ts ++ ["&"]) st = some st2 →
        st2.run_in_background = true := by
  subst hf
  intro n
  induction n with
  | zero =>
    intro ts hl _ _ st st2 hp
    have hnil : ts = [] := List.length_eq_zero.mp (Nat.le_zero.mp hl)
    subst hnil
    rw [List.nil_append, parseRest.eq_def] at hp
    simp [he] at hp
    rw [parseRest.eq_def] at hp
    simp only [Option.some.injEq] at hp
    subst hp
    simp [he]
  | succ n ih =>
    intro ts hl hlt hgt st st2 hp
    cases ts with
    | nil =>
      rw [List.nil_append, parseRest.eq_def] at hp
      simp [he] at hp
      rw [parseRest.eq_def] at hp
      simp only [Option.some.injEq] at hp
      subst hp
      simp [he]
    | cons t rest =>
      rw [List.cons_append, parseRest.eq_def] at hp
      by_cases h1 : t = "<"
      · subst h1
        cases rest with
        | nil => simp at hlt
        | cons f rest2 =>
          simp at hp
          refine ih rest2 (by simp at hl; omega) ?_ ?_ _ st2 hp
          · cases rest2 with
            | nil => simp
            | cons g rest3 => simpa [List.getLast?_cons_cons] using hlt
          · cases rest2 with
            | nil => simp
            | cons g rest3 => simpa [List.getLast?_cons_cons] using hgt
      · by_cases h2 : t = ">"
        · subst h2
          cases rest with
          | nil => simp at hgt
          | cons f rest2 =>
            simp at hp
            refine ih rest2 (by simp at hl; omega) ?_ ?_ _ st2 hp
            · cases rest2 with
              | nil => simp
              | cons g rest3 => simpa [List.getLast?_cons_cons] using hlt
            · cases rest2 with
              | nil => simp
              | cons g rest3 => simpa [List.getLast?_cons_cons] using hgt
        · have hrest : rest.length ≤ n := by simp at hl; omega
          have hlt2 : rest.getLast? ≠ some "<" := by
            cases rest with
            | nil => simp
            | cons g rest3 => simpa [List.getLast?_cons_cons] using hlt
          have hgt2 : rest.getLast? ≠ some ">" := by
            cases rest with
            | nil => simp
            | cons g rest3 => simpa [List.getLast?_cons_cons] using hgt
          by_cases h3 : t = "&"
          · subst h3
            simp [he] at hp
            exact ih rest hrest hlt2 hgt2 _ st2 hp
          · simp [h1, h2, h3] at hp
            exact ih rest hrest hlt2 hgt2 _ st2 hp

/-- C5: for a command line whose token list ends in `&` (the `&` not
being consumed at lines 180/185 as a redirection filename, which holds
whenever the token before it is not a pending `<` or `>`), the parse
marks the command for background execution exactly when
`fg_only_mode` is off and the command name is not `echo` (line 190); in
particular under foreground-only mode the flag stays false, the launch
takes the foreground branch (line 300), and no "background pid" line is
printed. -/
theorem trailing_amp_background_iff (fgOnly : Bool) (cmd : String)
    (ts : List String) (st st2 : Parsed)
    (h0 : st.run_in_background = false)
    (hlt : ts.getLast? ≠ some "<") (hgt : ts.getLast? ≠ some ">")
    (hp : parseRest fgOnly cmd (ts ++ ["&"]) st = some st2) :
    st2.run_in_background = (fgOnly == false && !(cmd == "echo")) ∧
    (fgOnly = true → ∀ pid : Int,
      launchParentPrints st2.run_in_background pid = []) := by
  have main : st2.run_in_background = (fgOnly == false && !(cmd == "echo")) := by
    cases hc : (fgOnly == false && !(cmd == "echo")) with
    | false =>
      have hor : fgOnly = true ∨ cmd = "echo" := by
        cases fgOnly <;> simp_all
      rw [parseRest_rib_of_cond_false fgOnly cmd hor (ts ++ ["&"]).length
        (ts ++ ["&"]) (Nat.le_refl _) st st2 hp, h0]
    | true =>
      have hand : fgOnly = false ∧ ¬ cmd = "echo" := by
        cases fgOnly <;> simp_all
      exact parseRest_rib_of_trailing_amp fgOnly cmd hand.1 hand.2 ts.length ts
        (Nat.le_refl _) hlt hgt st st2 hp
  refine ⟨main, ?_⟩
  intro hfg pid
  subst hfg
  rw [main]
  simp [launchParentPrints]

/-- Witness for C5 at a concrete input: in foreground-only mode the line
`sleep 1 &` parses with the background flag off. -/
theorem trailing_amp_background_iff_witness :
    ({ command := "sleep", args := ["sleep", "1"], input_file := "",
       output_file := "", run_in_background := false } : Parsed).run_in_background =
      ((true : Bool) == false && !(("sleep" : String) == "echo")) ∧
    ((true : Bool) = true → ∀ pid : Int,
      launchParentPrints
        ({ command := "sleep", args := ["sleep", "1"], input_file := "",
           output_file := "", run_in_background := false } : Parsed).run_in_background
        pid = []) :=
  trailing_amp_background_iff true "sleep" ["sleep", "1"]
    { emptyParsed with command := "sleep" } _ rfl (by decide) (by decide)
    (by decide)

/-- Helper for C8/C10: any list ending in `$$` contains `$$`. -/
theorem containsDD_append_dd (p : List Char) :
    containsDD (p ++ ['$', '$']) = true := by
  induction p with
  | nil => decide
  | cons c p2 ih => simp [containsDD, ih]

/-- Helper for C8: `takeWhile` up to the first `$` returns the `$`-free
text in front of it. -/
theorem takeWhile_to_dollar (p : List Char) (hp : '$' ∉ p) (r : List Char) :
    (p ++ '$' :: r).takeWhile (fun c => !(c == '$')) = p := by
  induction p with
  | nil => simp [List.takeWhile_cons]
  | cons c p2 ih =>
    have hc : c ≠ '$' := by rintro rfl; exact hp (List.mem_cons_self _ _)
    have hp2 : '$' ∉ p2 := fun hm => hp (List.mem_cons_of_mem c hm)
    simp [List.takeWhile_cons, hc, ih hp2]

/-- C8 counterexample: `a$b$$` ends in the suffix `$$` with prefix
`a$b`; with shell pid 1234 the claim predicts `a$b1234`, but `strtok`
stops at the first `$`, so the expander produces `a1234`. -/
theorem dollar_suffix_claim_cex :
    expandArg 1234 (['a', '$', 'b'] ++ ['$', '$']) =
      some ['a', '1', '2', '3', '4'] ∧
    ¬ expandArg 1234 (['a', '$', 'b'] ++ ['$', '$']) =
        some (['a', '$', 'b'] ++ pidChars 1234) := by decide

/-- C8 (amended): an argument that is exactly `$$` becomes the decimal
shell pid, and an argument ending in the suffix `$$` whose text in front
contains no further `$` becomes that text followed by the pid. -/
theorem dollar_exact_and_clean_suffix (pid : Nat) (p : List Char)
    (hp : '$' ∉ p) :
    expandArg pid ['$', '$'] = some (pidChars pid) ∧
    expandArg pid (p ++ ['$', '$']) = some (p ++ pidChars pid) := by
  constructor
  · simp [expandArg, containsDD, startsDD]
  · cases p with
    | nil => simp [expandArg, containsDD, startsDD]
    | cons c p2 =>
      have hc : c ≠ '$' := by rintro rfl; exact hp (List.mem_cons_self _ _)
      have hp2 : '$' ∉ p2 := fun hm => hp (List.mem_cons_of_mem c hm)
      have htake : (p2 ++ ['$', '$']).takeWhile (fun x => !(x == '$')) = p2 :=
        takeWhile_to_dollar p2 hp2 ['$']
      have hstr : strtokDollars (c :: (p2 ++ ['$', '$'])) = some (c :: p2) := by
        simp [strtokDollars, List.dropWhile_cons, List.takeWhile_cons, hc, htake]
      have hcont : containsDD (c :: (p2 ++ ['$', '$'])) = true := by
        simp [containsDD, containsDD_append_dd p2]
      simp [expandArg, hcont, hc, hstr]

/-- Witness for C8 (amended) at a concrete input: with shell pid 1234,
`$$` becomes `1234` and `foo$$` becomes `foo1234`. -/
theorem dollar_exact_and_clean_suffix_witness :
    expandArg 1234 ['$', '$'] = some (pidChars 1234) ∧
    expandArg 1234 (['f', 'o', 'o'] ++ ['$', '$']) =
      some (['f', 'o', 'o'] ++ pidChars 1234) :=
  dollar_exact_and_clean_suffix 1234 ['f', 'o', 'o'] (by decide)

/-- C10 counterexample: `$$b` contains `$$`, is not exactly `$$` and
does not end in `$$`; the text before its first `$` is empty, so the
claim predicts the bare pid `1234`, but `strtok` skips the leading `$`s
and the expander produces `b1234`. -/
theorem interior_dollars_claim_cex :
    expandArg 1234 ['$', '$', 'b'] = some ['b', '1', '2', '3', '4'] ∧
    ¬ expandArg 1234 ['$', '$', 'b'] =
        some (([] : List Char) ++ pidChars 1234) := by decide

/-- C10 (amended): an argument that contains `$$`, is not exactly `$$`,
and does not begin with `$` is rewritten to the text before its first
`$` followed by the decimal shell pid, discarding everything after that
first `$`. -/
theorem interior_dollars_first_run (pid : Nat) (c : Char) (p : List Char)
    (hc : ¬ c = '$') (hdd : containsDD (c :: p) = true) :
    expandArg pid (c :: p) =
      some ((c :: p).takeWhile (fun x => !(x == '$')) ++ pidChars pid) := by
  have hne : ¬ (c :: p = ['$', '$']) := by
    intro hEq
    injection hEq with hL _
    exact hc hL
  have hdrop : (c :: p).dropWhile (fun x => x == '$') = c :: p := by
    simp [List.dropWhile_cons, hc]
  have hstr : strtokDollars (c :: p) =
      some ((c :: p).takeWhile (fun x => !(x == '$'))) := by
    simp only [strtokDollars, hdrop]
    rw [if_neg (by simp)]
  simp [expandArg, hdd, hne, hstr]

/-- Witness for C10 (amended) at a concrete input: with shell pid 1234,
`a$$b` becomes `a1234`, losing the `b`. -/
theorem interior_dollars_first_run_witness :
    expandArg 1234 ['a', '$', '$', 'b'] =
      some ((['a', '$', '$', 'b']).takeWhile (fun x => !(x == '$'))
        ++ pidChars 1234) :=
  interior_dollars_first_run 1234 'a' ['$', '$', 'b'] (by decide) (by decide)

/-- Helper for C9: on the seven low status bits, the `WIFSIGNALED` test
never accepts the value 0 (which is what `WIFEXITED` accepts). -/
theorem sigTest_ne_zero : ∀ t : Nat, t < 128 → sigTest t = true → t ≠ 0 := by
  decide

/-- Helper for C9: a wait status accepted by `WIFSIGNALED` is rejected
by `WIFEXITED`. -/
theorem WIFEXITED_eq_false_of_signaled (x : Int) (h : WIFSIGNALED x = true) :
    WIFEXITED x = false := by
  have ht : toU32 x % 128 < 128 := Nat.mod_lt _ (by norm_num)
  have hne := sigTest_ne_zero (toU32 x % 128) ht h
  unfold WIFEXITED
  exact beq_eq_false_iff_ne.mpr hne

/-- C9: for every foreground child wait status that `WIFSIGNALED`
accepts, the handling at lines 346-352 records the terminating signal
number into `term_signal`, prints nothing when that signal is 11, and
prints the "terminated by signal N" line for every other signal. -/
theorem fg_signal_recorded_and_filtered (cem : Int) (es ts : Nat)
    (h : WIFSIGNALED cem = true) :
    (fgUpdate cem es ts).term_signal = WTERMSIG cem ∧
    (WTERMSIG cem = 11 → (fgUpdate cem es ts).printed = []) ∧
    (WTERMSIG cem ≠ 11 →
      (fgUpdate cem es ts).printed =
        ["terminated by signal " ++ toString (WTERMSIG cem)]) := by
  have hx := WIFEXITED_eq_false_of_signaled cem h
  refine ⟨?_, ?_, ?_⟩
  · simp [fgUpdate, hx, h]
  · intro h11; simp [fgUpdate, hx, h, h11]
  · intro h11; simp [fgUpdate, hx, h, h11]

/-- Witness for C9 at concrete inputs: status 9 (killed by SIGKILL) is
recorded and its message is printed; its signal number is not 11. -/
theorem fg_signal_recorded_and_filtered_witness :
    (fgUpdate 9 0 0).term_signal = WTERMSIG 9 ∧
    (WTERMSIG 9 = 11 → (fgUpdate 9 0 0).printed = []) ∧
    (WTERMSIG 9 ≠ 11 → (fgUpdate 9 0 0).printed =
      ["terminated by signal " ++ toString (WTERMSIG 9)]) :=
  fg_signal_recorded_and_filtered 9 0 0 (by decide)

end SmallShell
